import Mathlib

/-!
Shallow embedding of `src/libcore/iter/traits/mod.rs`: the lazy-sequence
(iterator) protocol's derived capabilities — `IntoIterator`, `Extend<()>`,
the `Sum`/`Product` aggregation impls, and the `ResultShunt` fail-fast
adapter used by the fallible `Sum`/`Product` impls.

An iterator over elements of type `α` is modelled as the list of elements
it has yet to yield; `Iterator.next` is the base poll operation, returning
the yielded element (or `none` at exhaustion) together with the advanced
iterator state.
-/

namespace RustIter

/-- Rust's two-variant `Result` type: `Ok` carrying a value or `Err`
carrying an error. -/
inductive Result (T E : Type) where
  | Ok : T → Result T E
  | Err : E → Result T E
deriving DecidableEq, Repr

/-- The base poll operation of the sequence-producer protocol: yield the
next element and the advanced state, or signal exhaustion. A list iterator
yields its head and keeps its tail. -/
def Iterator.next {α : Type} : List α → Option α × List α
  | [] => (none, [])
  | x :: xs => (some x, xs)

/-- Modelled from the spec: `Iterator::fold` lives in `iterator.rs`, which
is not under `src/`; per the spec's aggregation algorithm it initializes an
accumulator, pulls the sequence to exhaustion via the poll operation, and
replaces the accumulator with `combine(accumulator, element)` in strict
sequence order (left fold, no reordering). -/
def Iterator.fold {α β : Type} (l : List α) (acc : β) (f : β → α → β) : β :=
  match h : Iterator.next l with
  | (some x, rest) => Iterator.fold rest (f acc x) f
  | (none, _) => acc
termination_by l.length
decreasing_by
  cases l with
  | nil => simp [Iterator.next] at h
  | cons y ys =>
    simp [Iterator.next] at h
    simp [h.2]

/-- Modelled from the spec: `Iterator::for_each` also lives in
`iterator.rs` (not under `src/`); it pulls the producer to exhaustion,
applying the given action to each element. The exhausted iterator state is
returned alongside the unit result so that exhaustion is observable. -/
def Iterator.for_each {α : Type} (l : List α) (f : α → Unit) :
    Unit × List α :=
  match h : Iterator.next l with
  | (some x, rest) =>
    let _ := f x
    Iterator.for_each rest f
  | (none, rest) => ((), rest)
termination_by l.length
decreasing_by
  cases l with
  | nil => simp [Iterator.next] at h
  | cons y ys =>
    simp [Iterator.next] at h
    simp [h.2]

/-- Source `impl Sum for $a`: `fn sum(iter) { iter.fold($zero, Add::add) }`
from the `integer_sum_product!` / `float_sum_product!` macros,
parameterized by the numeric family's additive identity and addition
operation. -/
def Sum.sum {α : Type} (zero : α) (add : α → α → α) (l : List α) : α :=
  Iterator.fold l zero add

/-- Source `impl Product for $a`:
`fn product(iter) { iter.fold($one, Mul::mul) }` from the macros,
parameterized by the family's multiplicative identity and multiplication
operation. -/
def Product.product {α : Type} (one : α) (mul : α → α → α) (l : List α) :
    α :=
  Iterator.fold l one mul

/-- A shared reference `&'a T` to a `Copy` numeric element, modelled as a
wrapper holding the referenced value (no memory model is needed for
immutable references to `Copy` data). -/
structure Ref (α : Type) where
  val : α
deriving DecidableEq, Repr

/-- Dereferencing a shared reference (`*b`, or the auto-deref performed by
`Add::add` / `Mul::mul` on reference operands). -/
def Ref.deref {α : Type} (r : Ref α) : α := r.val

/-- Source `impl<'a> Sum<&'a $a> for $a`: fold with the family's zero,
dereferencing each element before combining (`Add::add` on a reference
operand for the integer macro, `|a, b| a + *b` for the float macro). -/
def Sum.sum_ref {α : Type} (zero : α) (add : α → α → α) (l : List (Ref α)) :
    α :=
  Iterator.fold l zero (fun a b => add a (Ref.deref b))

/-- Source `impl<'a> Product<&'a $a> for $a`: fold with the family's one,
dereferencing each element before combining. -/
def Product.product_ref {α : Type} (one : α) (mul : α → α → α)
    (l : List (Ref α)) : α :=
  Iterator.fold l one (fun a b => mul a (Ref.deref b))

/-- A `Wrapping<T>` value for a `w`-bit integer type `T`, modelled by its
bit pattern, a residue below `2 ^ w`. Wrapping addition (the `Add` impl
the macro's `Wrapping` instantiation folds with) reduces modulo `2 ^ w`. -/
def Wrapping.add (w : Nat) (a b : Nat) : Nat := (a + b) % 2 ^ w

/-- Wrapping multiplication for a `w`-bit integer type: reduce the exact
product modulo `2 ^ w`. -/
def Wrapping.mul (w : Nat) (a b : Nat) : Nat := (a * b) % 2 ^ w

/-- Source `impl Sum for Wrapping<$a>`: fold from `Wrapping(0)` with the
wrapping addition. -/
def Wrapping.sum (w : Nat) (l : List Nat) : Nat :=
  Sum.sum 0 (Wrapping.add w) l

/-- Source `impl Product for Wrapping<$a>`: fold from `Wrapping(1)` with
the wrapping multiplication. -/
def Wrapping.product (w : Nat) (l : List Nat) : Nat :=
  Product.product 1 (Wrapping.mul w) l

/-- The fail-fast adapter: pairs the underlying iterator over fallible
elements with a single optional error slot (source `struct ResultShunt`). -/
structure ResultShunt (T E : Type) where
  iter : List (Result T E)
  error : Option E
deriving DecidableEq, Repr

/-- Source `ResultShunt::new`: wrap an iterator with an empty error slot. -/
def ResultShunt.new {T E : Type} (iter : List (Result T E)) :
    ResultShunt T E :=
  { iter := iter, error := none }

/-- Source `ResultShunt::next`: delegate to the underlying iterator; on
`Ok(v)` yield `v`; on `Err(e)` store the error (unconditionally, as in the
source's `self.error = Some(e)`) and signal exhaustion; on underlying
exhaustion signal exhaustion. -/
def ResultShunt.next {T E : Type} (s : ResultShunt T E) :
    Option T × ResultShunt T E :=
  match Iterator.next s.iter with
  | (some (Result.Ok v), rest) => (some v, { s with iter := rest })
  | (some (Result.Err e), rest) => (none, { iter := rest, error := some e })
  | (none, rest) => (none, { s with iter := rest })

/-- Source `ResultShunt::size_hint`: `(0, Some(0))` once an error is
recorded, otherwise `(0, upper)` where `upper` is the underlying
iterator's upper bound. The underlying `size_hint` is generic code outside
this file's scope, so its result is passed in abstractly. -/
def ResultShunt.size_hint {T E : Type} (s : ResultShunt T E)
    (underlying : Nat × Option Nat) : Nat × Option Nat :=
  if s.error.isSome then
    (0, some 0)
  else
    (0, underlying.2)

/-- The pull-based fold of `iterator.rs` (modelled from the spec, as for
`Iterator.fold`) instantiated at the adapter: this is what `|i| i.sum()`
and `|i| i.product()` run inside `ResultShunt::process`. The final adapter
state is kept so that consumption can be observed. -/
def ResultShunt.fold {T E U : Type} (s : ResultShunt T E) (acc : U)
    (f : U → T → U) : U × ResultShunt T E :=
  match h : ResultShunt.next s with
  | (some v, s') => ResultShunt.fold s' (f acc v) f
  | (none, s') => (acc, s')
termination_by s.iter.length
decreasing_by
  cases hl : s.iter with
  | nil => simp [ResultShunt.next, Iterator.next, hl] at h
  | cons r rest =>
    cases r with
    | Ok w =>
      simp [ResultShunt.next, Iterator.next, hl] at h
      rw [← h.2]
      simp [hl]
    | Err e =>
      simp [ResultShunt.next, Iterator.next, hl] at h

/-- Source `ResultShunt::reconstruct`: rebuild a `Result` from the error
slot and the accumulated value. -/
def ResultShunt.reconstruct {T E U : Type} (s : ResultShunt T E) (val : U) :
    Result U E :=
  match s.error with
  | none => Result.Ok val
  | some e => Result.Err e

/-- Source `ResultShunt::process`: wrap the iterator, run the consuming
fold (`|i| i.sum()` / `|i| i.product()`, i.e. the pull-based fold with the
family's identity and combination), then always finalize via
`reconstruct`. -/
def ResultShunt.process {T E U : Type} (iter : List (Result T E)) (init : U)
    (f : U → T → U) : Result U E :=
  let shunt := ResultShunt.new iter
  let p := ResultShunt.fold shunt init f
  ResultShunt.reconstruct p.2 p.1

/-- The adapter state left behind by the consuming fold inside `process`:
its `iter` field holds exactly the elements the fold never pulled. -/
def ResultShunt.processState {T E : Type} {U : Type}
    (iter : List (Result T E)) (init : U) (f : U → T → U) :
    ResultShunt T E :=
  (ResultShunt.fold (ResultShunt.new iter) init f).2

/-- Source `impl<T, U, E> Sum<Result<U, E>> for Result<T, E>`:
`ResultShunt::process(iter, |i| i.sum())`. -/
def Result.sum {U E : Type} (zero : U) (add : U → U → U)
    (l : List (Result U E)) : Result U E :=
  ResultShunt.process l zero add

/-- Source `impl<T, U, E> Product<Result<U, E>> for Result<T, E>`:
`ResultShunt::process(iter, |i| i.product())`. -/
def Result.product {U E : Type} (one : U) (mul : U → U → U)
    (l : List (Result U E)) : Result U E :=
  ResultShunt.process l one mul

/-- The inner values of the successes preceding the first failure of a
fallible sequence. -/
def okValues {T E : Type} : List (Result T E) → List T
  | [] => []
  | Result.Ok v :: rest => v :: okValues rest
  | Result.Err _ :: _ => []

/-- The first failure of a fallible sequence, in sequence order, if any. -/
def firstErr {T E : Type} : List (Result T E) → Option E
  | [] => none
  | Result.Ok _ :: rest => firstErr rest
  | Result.Err e :: _ => some e

/-- The elements strictly after the first failure of a fallible sequence
(empty when there is no failure). -/
def afterFirstErr {T E : Type} : List (Result T E) → List (Result T E)
  | [] => []
  | Result.Ok _ :: rest => afterFirstErr rest
  | Result.Err _ :: rest => rest

/-- Source reflexive `impl<I: Iterator> IntoIterator for I`:
`fn into_iter(self) -> I { self }`. -/
def IntoIterator.into_iter {α : Type} (it : List α) : List α := it

/-- Rust's `mem::drop`: take ownership of a value and discard it. -/
def drop {α : Type} (_x : α) : Unit := ()

/-- Source `impl Extend<()> for ()`:
`fn extend(&mut self, iter) { iter.into_iter().for_each(drop) }`. The unit
target (there is no state to mutate, so it is returned as-is) is paired
with the exhausted iterator state left by `for_each`. -/
def Unit.extend (u : Unit) (iter : List Unit) : Unit × List Unit :=
  (u, (Iterator.for_each (IntoIterator.into_iter iter) drop).2)

/-! Equation lemmas for the pull-based folds, and the full description of
a run of the adapter's consuming fold. -/

theorem Iterator.fold_nil {α β : Type} (acc : β) (f : β → α → β) :
    Iterator.fold [] acc f = acc := by
  rw [Iterator.fold]
  simp [Iterator.next]

theorem Iterator.fold_cons {α β : Type} (x : α) (xs : List α) (acc : β)
    (f : β → α → β) :
    Iterator.fold (x :: xs) acc f = Iterator.fold xs (f acc x) f := by
  rw [Iterator.fold]
  simp [Iterator.next]

/-- The pull-based fold agrees with the mathematical left fold. -/
theorem Iterator.fold_eq_foldl {α β : Type} (l : List α) (acc : β)
    (f : β → α → β) : Iterator.fold l acc f = l.foldl f acc := by
  induction l generalizing acc with
  | nil => rw [Iterator.fold_nil, List.foldl_nil]
  | cons x xs ih => rw [Iterator.fold_cons, List.foldl_cons, ih]

/-- Running `for_each` pulls the iterator all the way to exhaustion. -/
theorem Iterator.for_each_run {α : Type} (l : List α) (f : α → Unit) :
    Iterator.for_each l f = ((), []) := by
  induction l with
  | nil =>
    rw [Iterator.for_each]
    simp [Iterator.next]
  | cons x xs ih =>
    rw [Iterator.for_each]
    simp [Iterator.next]
    exact ih

theorem ResultShunt.fold_exhausted {T E U : Type} (err : Option E) (acc : U)
    (f : U → T → U) :
    ResultShunt.fold ⟨[], err⟩ acc f = (acc, ⟨[], err⟩) := by
  rw [ResultShunt.fold]
  simp [ResultShunt.next, Iterator.next]

theorem ResultShunt.fold_ok {T E U : Type} (v : T)
    (rest : List (Result T E)) (err : Option E) (acc : U) (f : U → T → U) :
    ResultShunt.fold ⟨Result.Ok v :: rest, err⟩ acc f =
      ResultShunt.fold ⟨rest, err⟩ (f acc v) f := by
  rw [ResultShunt.fold]
  simp [ResultShunt.next, Iterator.next]

theorem ResultShunt.fold_err {T E U : Type} (e : E)
    (rest : List (Result T E)) (err : Option E) (acc : U) (f : U → T → U) :
    ResultShunt.fold ⟨Result.Err e :: rest, err⟩ acc f =
      (acc, ⟨rest, some e⟩) := by
  rw [ResultShunt.fold]
  simp [ResultShunt.next, Iterator.next]

/-- Complete description of the consuming fold over the adapter: the value
is the left fold of the successes before the first failure; the final
error slot holds the first failure (or keeps its initial contents when
there is none); the unconsumed elements are exactly those after the first
failure. -/
theorem ResultShunt.fold_run {T E U : Type} (l : List (Result T E))
    (err : Option E) (acc : U) (f : U → T → U) :
    ResultShunt.fold ⟨l, err⟩ acc f =
      ((okValues l).foldl f acc,
       ⟨afterFirstErr l,
        match firstErr l with
        | none => err
        | some e => some e⟩) := by
  induction l generalizing acc with
  | nil => rw [ResultShunt.fold_exhausted]; rfl
  | cons r rest ih =>
    cases r with
    | Ok v =>
      rw [ResultShunt.fold_ok, ih]
      rfl
    | Err e =>
      rw [ResultShunt.fold_err]
      rfl

/-- The overall result of `process` is the fold of the success values when
the sequence holds no failure, and the first failure otherwise. -/
theorem ResultShunt.process_eq {T E U : Type} (l : List (Result T E))
    (init : U) (f : U → T → U) :
    ResultShunt.process l init f =
      match firstErr l with
      | none => Result.Ok ((okValues l).foldl f init)
      | some e => Result.Err e := by
  show ResultShunt.reconstruct (ResultShunt.fold ⟨l, none⟩ init f).2
      (ResultShunt.fold ⟨l, none⟩ init f).1 = _
  rw [ResultShunt.fold_run]
  cases firstErr l <;> rfl

/-- The adapter state after the consuming fold: the unconsumed elements
are those after the first failure, and the error slot holds the first
failure (if any). -/
theorem ResultShunt.processState_eq {T E U : Type} (l : List (Result T E))
    (init : U) (f : U → T → U) :
    ResultShunt.processState l init f = ⟨afterFirstErr l, firstErr l⟩ := by
  show (ResultShunt.fold ⟨l, none⟩ init f).2 = _
  rw [ResultShunt.fold_run]
  cases firstErr l <;> rfl

/-- When a fallible sequence holds no failure, every element contributes
its inner value. -/
theorem okValues_length_of_firstErr_none {T E : Type}
    (l : List (Result T E)) (h : firstErr l = none) :
    (okValues l).length = l.length := by
  induction l with
  | nil => rfl
  | cons r rest ih =>
    cases r with
    | Ok v =>
      simp only [firstErr] at h
      simp [okValues, ih h]
    | Err e => simp [firstErr] at h

/-- Folding with the wrapping addition from a reduced accumulator equals
the exact sum reduced modulo `2 ^ w`. -/
theorem foldl_wrapping_add (w : Nat) (l : List Nat) (a : Nat) :
    l.foldl (Wrapping.add w) (a % 2 ^ w) = (l.foldl (· + ·) a) % 2 ^ w := by
  induction l generalizing a with
  | nil => simp
  | cons x xs ih =>
    rw [List.foldl_cons, List.foldl_cons]
    have hx : Wrapping.add w (a % 2 ^ w) x = (a + x) % 2 ^ w :=
      (Nat.mod_modEq a (2 ^ w)).add_right x
    rw [hx]
    exact ih (a + x)

/-- Folding with the wrapping multiplication from a reduced accumulator
equals the exact product reduced modulo `2 ^ w`. -/
theorem foldl_wrapping_mul (w : Nat) (l : List Nat) (a : Nat) :
    l.foldl (Wrapping.mul w) (a % 2 ^ w) = (l.foldl (· * ·) a) % 2 ^ w := by
  induction l generalizing a with
  | nil => simp
  | cons x xs ih =>
    rw [List.foldl_cons, List.foldl_cons]
    have hx : Wrapping.mul w (a % 2 ^ w) x = (a * x) % 2 ^ w :=
      (Nat.mod_modEq a (2 ^ w)).mul_right x
    rw [hx]
    exact ih (a * x)

/-! The claims. -/

/-- C1: fallible summation (and, identically, fallible product) returns
success wrapping the left fold of all inner values, in sequence order, if
and only if every element pulled is a success; if any element is a
failure, it returns failure wrapping the first failure in sequence order,
and no element after that first failure is ever polled (the elements after
the first failure remain, unpulled, in the underlying iterator). -/
theorem result_sum_product_short_circuit {U E : Type} (zero one : U)
    (add mul : U → U → U) (l : List (Result U E)) :
    Result.sum zero add l = ResultShunt.process l zero add ∧
    Result.product one mul l = ResultShunt.process l one mul ∧
    (firstErr l = none →
      Result.sum zero add l = Result.Ok ((okValues l).foldl add zero) ∧
      Result.product one mul l = Result.Ok ((okValues l).foldl mul one)) ∧
    ∀ e, firstErr l = some e →
      Result.sum zero add l = Result.Err e ∧
      Result.product one mul l = Result.Err e ∧
      (ResultShunt.processState l zero add).iter = afterFirstErr l ∧
      (ResultShunt.processState l one mul).iter = afterFirstErr l := by
  refine ⟨rfl, rfl, ?_, ?_⟩
  · intro h
    constructor <;> simp [Result.sum, Result.product, ResultShunt.process_eq, h]
  · intro e he
    refine ⟨?_, ?_, ?_, ?_⟩ <;>
      simp [Result.sum, Result.product, ResultShunt.process_eq,
        ResultShunt.processState_eq, he]

/-- C1 witness: summing the fallible integers
`[Ok(1), Ok(2), Err("bad"), Ok(99)]` yields `Err("bad")`, and the element
`Ok(99)` is never consumed — it is exactly what remains in the underlying
iterator after the aggregation. -/
theorem result_sum_product_short_circuit_witness :
    firstErr ([Result.Ok 1, Result.Ok 2, Result.Err "bad", Result.Ok 99] :
      List (Result Int String)) = some "bad" ∧
    Result.sum (0 : Int) (· + ·)
      [Result.Ok 1, Result.Ok 2, Result.Err "bad", Result.Ok 99] =
      Result.Err "bad" ∧
    (ResultShunt.processState
      ([Result.Ok 1, Result.Ok 2, Result.Err "bad", Result.Ok 99] :
        List (Result Int String)) (0 : Int) (· + ·)).iter =
      [Result.Ok 99] := by
  have h := (result_sum_product_short_circuit (0 : Int) (1 : Int) (· + ·)
      (· * ·)
      ([Result.Ok 1, Result.Ok 2, Result.Err "bad", Result.Ok 99] :
        List (Result Int String))).2.2.2 "bad" rfl
  refine ⟨rfl, h.1, ?_⟩
  rw [h.2.2.1]
  rfl

/-- C2 counterexample: polled directly after recording an error, the
adapter delegates to the underlying iterator again. Starting from
`[Err("a"), Ok(5)]`, after the error slot is set to `"a"` the next poll
yields `Some(5)` rather than reporting exhaustion; starting from
`[Err("a"), Err("b")]`, a second poll overwrites the slot with `"b"`. -/
theorem resultShunt_error_slot_counterexample :
    ((ResultShunt.new ([Result.Err "a", Result.Ok 5] :
      List (Result Int String))).next.2.error = some "a") ∧
    ((ResultShunt.new ([Result.Err "a", Result.Ok 5] :
      List (Result Int String))).next.2.next.1 = some 5) ∧
    (some (5 : Int) ≠ (none : Option Int)) ∧
    ((ResultShunt.new ([Result.Err "a", Result.Err "b"] :
      List (Result Int String))).next.2.error = some "a") ∧
    ((ResultShunt.new ([Result.Err "a", Result.Err "b"] :
      List (Result Int String))).next.2.next.2.error = some "b") ∧
    (some "b" ≠ some "a") := by
  refine ⟨rfl, rfl, by simp, rfl, rfl, by simp⟩

/-- C2 (amended): during the consuming fold through which `process` uses
the adapter — a fold that stops polling at the first exhaustion signal —
the error slot is written at most once: it ends up holding the first
failure of the sequence (never a later one), and no element past that
first failure is polled. (Polled directly after an error, outside that
discipline, the adapter delegates to the underlying iterator again and
may yield further elements or overwrite the slot.) -/
theorem resultShunt_fold_error_once {T E U : Type} (l : List (Result T E))
    (init : U) (f : U → T → U) :
    (ResultShunt.processState l init f).error = firstErr l ∧
    (ResultShunt.processState l init f).iter = afterFirstErr l := by
  rw [ResultShunt.processState_eq]
  exact ⟨rfl, rfl⟩

/-- C3: for every numeric family (any identity elements and combination
operations) and every finite sequence, `sum` is the left fold of the
family's addition starting from its zero, in original sequence order, and
`product` is the left fold of its multiplication starting from its one. -/
theorem sum_product_eq_left_fold {α : Type} (zero one : α)
    (add mul : α → α → α) (l : List α) :
    Sum.sum zero add l = l.foldl add zero ∧
    Product.product one mul l = l.foldl mul one :=
  ⟨Iterator.fold_eq_foldl l zero add, Iterator.fold_eq_foldl l one mul⟩

/-- C4: for every numeric family — any choice of identity elements and
combination operations, hence each fixed-width integer, wrapping and
floating-point instantiation — summing the empty sequence returns the
family's zero and taking the product of the empty sequence returns the
family's one; in particular for the 8-bit wrapping family. -/
theorem sum_product_empty {α : Type} (zero one : α) (add mul : α → α → α) :
    Sum.sum zero add ([] : List α) = zero ∧
    Product.product one mul ([] : List α) = one ∧
    Wrapping.sum 8 [] = 0 ∧
    Wrapping.product 8 [] = 1 :=
  ⟨Iterator.fold_nil zero add, Iterator.fold_nil one mul,
   Iterator.fold_nil 0 (Wrapping.add 8), Iterator.fold_nil 1 (Wrapping.mul 8)⟩

/-- C5: `process` always performs the finalization step after the
consuming fold: its result is exactly `reconstruct` of the fold's final
state and value; a success result means no failure occurred and wraps the
combination of all inner values (no partial accumulator); a failure
result wraps the sequence's first error. -/
theorem resultShunt_process_finalizes {T E U : Type}
    (l : List (Result T E)) (init : U) (f : U → T → U) :
    ResultShunt.process l init f =
      ResultShunt.reconstruct (ResultShunt.processState l init f)
        (ResultShunt.fold (ResultShunt.new l) init f).1 ∧
    (∀ v, ResultShunt.process l init f = Result.Ok v →
        firstErr l = none ∧ (okValues l).length = l.length ∧
        v = (okValues l).foldl f init) ∧
    ∀ e, ResultShunt.process l init f = Result.Err e →
      firstErr l = some e := by
  refine ⟨rfl, ?_, ?_⟩
  · intro v hv
    rw [ResultShunt.process_eq] at hv
    cases he : firstErr l with
    | none =>
      rw [he] at hv
      simp only [Result.Ok.injEq] at hv
      exact ⟨rfl, okValues_length_of_firstErr_none l he, hv.symm⟩
    | some e =>
      rw [he] at hv
      simp at hv
  · intro e hv
    rw [ResultShunt.process_eq] at hv
    cases he : firstErr l with
    | none =>
      rw [he] at hv
      simp at hv
    | some e2 =>
      rw [he] at hv
      simp only [Result.Err.injEq] at hv
      rw [hv]

/-- C5 witness: processing the all-success sequence `[Ok(1), Ok(2)]` with
the additive fold yields `Ok(3)`, the fully combined value of every inner
element. -/
theorem resultShunt_process_finalizes_witness :
    firstErr ([Result.Ok 1, Result.Ok 2] : List (Result Int String)) =
      none ∧
    (okValues ([Result.Ok 1, Result.Ok 2] :
      List (Result Int String))).length =
      ([Result.Ok 1, Result.Ok 2] : List (Result Int String)).length ∧
    (3 : Int) = (okValues ([Result.Ok 1, Result.Ok 2] :
      List (Result Int String))).foldl (· + ·) 0 := by
  have hp : ResultShunt.process
      ([Result.Ok 1, Result.Ok 2] : List (Result Int String)) (0 : Int)
      (· + ·) = Result.Ok 3 := by
    rw [ResultShunt.process_eq]
    rfl
  exact (resultShunt_process_finalizes
    ([Result.Ok 1, Result.Ok 2] : List (Result Int String)) (0 : Int)
    (· + ·)).2.1 3 hp

/-- C6: the adapter's size hint is `(0, u)` where `u` is the underlying
iterator's upper bound whenever no error has been recorded, and
`(0, Some(0))` whenever an error has been recorded. -/
theorem resultShunt_size_hint_spec {T E : Type} (s : ResultShunt T E)
    (u : Nat × Option Nat) :
    (s.error = none → ResultShunt.size_hint s u = (0, u.2)) ∧
    ∀ e, s.error = some e → ResultShunt.size_hint s u = (0, some 0) := by
  constructor
  · intro h
    simp [ResultShunt.size_hint, h]
  · intro e h
    simp [ResultShunt.size_hint, h]

/-- C6 witness: with underlying hint `(5, Some(7))`, an error-free adapter
reports `(0, Some(7))` and an adapter with a recorded error reports
`(0, Some(0))`. -/
theorem resultShunt_size_hint_spec_witness :
    ResultShunt.size_hint
      (⟨[Result.Ok 1], none⟩ : ResultShunt Int String) (5, some 7) =
      (0, some 7) ∧
    ResultShunt.size_hint
      (⟨[Result.Ok 1], some "e"⟩ : ResultShunt Int String) (5, some 7) =
      (0, some 0) :=
  ⟨(resultShunt_size_hint_spec
      (⟨[Result.Ok 1], none⟩ : ResultShunt Int String) (5, some 7)).1 rfl,
   (resultShunt_size_hint_spec
      (⟨[Result.Ok 1], some "e"⟩ : ResultShunt Int String) (5, some 7)).2
      "e" rfl⟩

/-- C7: for the wrapping family over a `w`-bit integer type, summation
folds from `Wrapping(0)` and product from `Wrapping(1)` with the (total,
never-failing) wrapping operations, and the result equals the exact
integer fold reduced modulo `2 ^ w`. -/
theorem wrapping_sum_product_mod (w : Nat) (l : List Nat) (h : 1 ≤ w) :
    Wrapping.sum w l = (l.foldl (· + ·) 0) % 2 ^ w ∧
    Wrapping.product w l = (l.foldl (· * ·) 1) % 2 ^ w := by
  constructor
  · show Iterator.fold l 0 (Wrapping.add w) = _
    rw [Iterator.fold_eq_foldl]
    have h0 : (0 : Nat) = 0 % 2 ^ w := (Nat.zero_mod _).symm
    rw [show List.foldl (Wrapping.add w) 0 l =
        List.foldl (Wrapping.add w) (0 % 2 ^ w) l by rw [← h0]]
    exact foldl_wrapping_add w l 0
  · show Iterator.fold l 1 (Wrapping.mul w) = _
    rw [Iterator.fold_eq_foldl]
    have h1 : (1 : Nat) = 1 % 2 ^ w := by
      have : 1 < 2 ^ w := Nat.one_lt_two_pow_iff.mpr (by omega)
      exact (Nat.mod_eq_of_lt this).symm
    rw [show List.foldl (Wrapping.mul w) 1 l =
        List.foldl (Wrapping.mul w) (1 % 2 ^ w) l by rw [← h1]]
    exact foldl_wrapping_mul w l 1

/-- C7 witness: for the 8-bit wrapping family, summing `[200, 100, 7]` and
multiplying `[200, 100, 7]` equal the exact fold results reduced modulo
`2 ^ 8`. -/
theorem wrapping_sum_product_mod_witness :
    1 ≤ 8 ∧
    Wrapping.sum 8 [200, 100, 7] =
      (([200, 100, 7] : List Nat).foldl (· + ·) 0) % 2 ^ 8 ∧
    Wrapping.product 8 [200, 100, 7] =
      (([200, 100, 7] : List Nat).foldl (· * ·) 1) % 2 ^ 8 :=
  ⟨by decide,
   (wrapping_sum_product_mod 8 [200, 100, 7] (by decide)).1,
   (wrapping_sum_product_mod 8 [200, 100, 7] (by decide)).2⟩

/-- C8: for every numeric family, the reference-element overloads of `sum`
and `product` produce the same owned result as the owned-element
aggregation applied to the dereferenced elements. -/
theorem sum_product_ref_eq_owned {α : Type} (zero one : α)
    (add mul : α → α → α) (l : List (Ref α)) :
    Sum.sum_ref zero add l = Sum.sum zero add (l.map Ref.deref) ∧
    Product.product_ref one mul l =
      Product.product one mul (l.map Ref.deref) := by
  constructor
  · show Iterator.fold l zero (fun a b => add a (Ref.deref b)) =
      Iterator.fold (l.map Ref.deref) zero add
    rw [Iterator.fold_eq_foldl, Iterator.fold_eq_foldl, List.foldl_map]
  · show Iterator.fold l one (fun a b => mul a (Ref.deref b)) =
      Iterator.fold (l.map Ref.deref) one mul
    rw [Iterator.fold_eq_foldl, Iterator.fold_eq_foldl, List.foldl_map]

/-- C9: the reflexive sequence-from-value conversion of an iterator is the
identity — the converted producer is the very same value, so polling and
folding it behave exactly like polling and folding the original. -/
theorem into_iter_identity {α : Type} (it : List α) :
    IntoIterator.into_iter it = it ∧
    Iterator.next (IntoIterator.into_iter it) = Iterator.next it ∧
    ∀ (β : Type) (acc : β) (f : β → α → β),
      Iterator.fold (IntoIterator.into_iter it) acc f =
        Iterator.fold it acc f :=
  ⟨rfl, rfl, fun _ _ _ => rfl⟩

/-- C10: extending the unit value with a sequence of unit elements pulls
the source to exhaustion (the leftover iterator state is empty), dropping
each element, and leaves the unit target unchanged. -/
theorem unit_extend_exhausts (u : Unit) (l : List Unit) :
    Unit.extend u l = (u, []) ∧
    (Iterator.for_each (IntoIterator.into_iter l) drop).2 = [] := by
  have h : Iterator.for_each (IntoIterator.into_iter l) drop = ((), []) :=
    Iterator.for_each_run l drop
  constructor
  · show (u, (Iterator.for_each (IntoIterator.into_iter l) drop).2) = (u, [])
    rw [h]
  · rw [h]

end RustIter
